import Mathlib

/-!
Verification of the hexsynth core: the quantizer (src/utils/music.ts), the
arpeggiator (src/audio/Arpeggiator.ts) and the audio engine / loop recorder
(AudioEngine).  Frequencies and times handled by the stateful engine are
modelled as rationals; the quantizer, which computes with logarithms and
real powers, is modelled over the reals with a computable rational twin for
concrete evaluation.
-/

namespace HexSynth

/-! ## Quantizer: scales and chord types (src/utils/music.ts) -/

inductive ScaleType
  | chromatic | major | minor | dorian | phrygian | lydian | mixolydian
  | aeolian | locrian | pentatonicMajor | pentatonicMinor | blues
deriving DecidableEq

inductive ChordType
  | off | triad | sus2 | sus4 | maj7 | m7 | dom7 | dim | aug | maj9 | m9
deriving DecidableEq

/-- Interval lists of `SCALES` in music.ts. -/
def scaleIntervals : ScaleType → List ℤ
  | .chromatic => [0, 1, 2, 3, 4, 5, 6, 7, 8, 9, 10, 11]
  | .major => [0, 2, 4, 5, 7, 9, 11]
  | .minor => [0, 2, 3, 5, 7, 8, 10]
  | .dorian => [0, 2, 3, 5, 7, 9, 10]
  | .phrygian => [0, 1, 3, 5, 7, 8, 10]
  | .lydian => [0, 2, 4, 6, 7, 9, 11]
  | .mixolydian => [0, 2, 4, 5, 7, 9, 10]
  | .aeolian => [0, 2, 3, 5, 7, 8, 10]
  | .locrian => [0, 1, 3, 5, 6, 8, 10]
  | .pentatonicMajor => [0, 2, 4, 7, 9]
  | .pentatonicMinor => [0, 3, 5, 7, 10]
  | .blues => [0, 3, 5, 6, 7, 10]

/-- The nearest-interval loop of `getNearestScaleNote`: `minDiff` starts at
Infinity (modelled by the `none` accumulator) and `nearestInterval` at 0, and
an interval strictly decreasing the distance replaces the current best, so the
first interval attaining the minimum wins.  The rounded position and the
intervals are integers, so the search is over ℤ. -/
def nearestInterval (norm : ℤ) (l : List ℤ) : ℤ :=
  ((l.foldl (fun st i =>
      match st with
      | none => some (|norm - i|, i)
      | some (d, j) => if |norm - i| < d then some (|norm - i|, i) else some (d, j))
    none).map Prod.snd).getD 0

/-- JS `Math.trunc`-style integer part (toward zero), the rounding hidden in
the JS `%` operator.  Stated over any ordered field with a floor, so that the
real-valued code and its computable rational twin share one definition. -/
def jsTrunc {α : Type} [LinearOrderedField α] [FloorRing α] (x : α) : ℤ :=
  if 0 ≤ x then ⌊x⌋ else ⌈x⌉

/-- The JS remainder operator `a % b` on numbers: the sign follows the
dividend. -/
def jsMod {α : Type} [LinearOrderedField α] [FloorRing α] (a b : α) : α :=
  a - b * jsTrunc (a / b)

/-- `getNearestScaleNote` of music.ts: splits the semitone offset into
`octave = Math.floor(s / 12)` and `noteIndex = Math.round(s % 12)`, adds 12 to
a negative index, and searches the scale's interval list. -/
def getNearestScaleNote {α : Type} [LinearOrderedField α] [FloorRing α]
    (semitonesFromRoot : α) (scaleType : ScaleType) : ℤ :=
  let octave : ℤ := ⌊semitonesFromRoot / 12⌋
  let noteIndex : ℤ := round (jsMod semitonesFromRoot 12)
  let normalizedIndex : ℤ := if noteIndex < 0 then noteIndex + 12 else noteIndex
  octave * 12 + nearestInterval normalizedIndex (scaleIntervals scaleType)

/-- `quantizeFrequency` of music.ts. -/
noncomputable def quantizeFrequency (freq rootFreq : ℝ) (scaleType : ScaleType) : ℝ :=
  if scaleType = .chromatic then freq
  else
    let semitonesEx : ℝ := 12 * Real.logb 2 (freq / rootFreq)
    let quantizedSemitones : ℤ := getNearestScaleNote semitonesEx scaleType
    rootFreq * (2 : ℝ) ^ ((quantizedSemitones : ℝ) / 12)

/-- The `CHORD_INTERVALS` table of `getChordFrequencies`; `none` for the two
chord types absent from the table. -/
def CHORD_INTERVALS : ChordType → Option (List ℤ)
  | .maj7 => some [0, 4, 7, 11]
  | .m7 => some [0, 3, 7, 10]
  | .dom7 => some [0, 4, 7, 10]
  | .sus2 => some [0, 2, 7]
  | .sus4 => some [0, 5, 7]
  | .aug => some [0, 4, 8]
  | .dim => some [0, 3, 6]
  | .maj9 => some [0, 4, 7, 11, 14]
  | .m9 => some [0, 3, 7, 10, 14]
  | .off => none
  | .triad => none

/-- The `intervals.forEach` search of the diatonic-triad branch of
`getChordFrequencies`: `minDiff` starts at 100 and `intervalIndex` at -1, and
a strictly smaller distance records the interval's position in the list. -/
def findIntervalIndex (norm : ℤ) (l : List ℤ) : ℤ :=
  (l.enum.foldl (fun st p =>
      if |p.2 - norm| < st.1 then (|p.2 - norm|, (p.1 : ℤ)) else st)
    ((100 : ℤ), (-1 : ℤ))).2

/-- `getChordFrequencies` of music.ts.  The named qualities are looked up
first, then the chromatic special cases, then the diatonic-triad logic. -/
noncomputable def getChordFrequencies (baseFreq rootFreq : ℝ) (scaleType : ScaleType)
    (chordType : ChordType) : List ℝ :=
  if chordType = .off then [baseFreq]
  else
    match CHORD_INTERVALS chordType with
    | some ivs => ivs.map (fun semitone => baseFreq * (2 : ℝ) ^ ((semitone : ℝ) / 12))
    | none =>
      if scaleType = .chromatic then
        if chordType = .triad then
          ([0, 4, 7] : List ℤ).map (fun s => baseFreq * (2 : ℝ) ^ ((s : ℝ) / 12))
        else [baseFreq]
      else
        let semitonesFromRoot : ℝ := 12 * Real.logb 2 (baseFreq / rootFreq)
        let quantizedSemitones : ℤ := getNearestScaleNote semitonesFromRoot scaleType
        let intervals : List ℤ := scaleIntervals scaleType
        let currentOctave : ℤ := Int.fdiv quantizedSemitones 12
        let baseNoteIndex : ℤ := Int.tmod quantizedSemitones 12
        let normBaseMod : ℤ := Int.tmod (Int.tmod baseNoteIndex 12 + 12) 12
        let intervalIndex : ℤ := findIntervalIndex normBaseMod intervals
        if intervalIndex = -1 then [baseFreq]
        else if chordType = .triad then
          ([0, 2, 4] : List ℤ).map (fun offset =>
            let totalIndex : ℤ := intervalIndex + offset
            let effectiveIntervalIndex : ℤ := Int.tmod totalIndex (intervals.length : ℤ)
            let octaveShift : ℤ := Int.fdiv totalIndex (intervals.length : ℤ)
            let scaleInterval : ℤ := intervals.getD effectiveIntervalIndex.toNat 0
            let totalSemitones : ℤ := scaleInterval + (currentOctave + octaveShift) * 12
            rootFreq * (2 : ℝ) ^ ((totalSemitones : ℝ) / 12))
        else [baseFreq]

/-! ## Arpeggiator (src/audio/Arpeggiator.ts)

The `activeNotes` JS `Set` is modelled as a duplicate-free list in insertion
order; `sortedNotes` is the stored ascending copy rebuilt by
`updateSortedNotes`.  The clock and the note callback are external: `tick`
returns the emitted frequencies (`none` when nothing plays) next to the new
state, and the `Math.random` draw is an explicit parameter. -/

inductive ArpPattern
  | up | down | upDown | random | chord
deriving DecidableEq

structure ArpState where
  activeNotes : List ℚ
  sortedNotes : List ℚ
  pattern : ArpPattern
  index : ℕ
  isEnabled : Bool
deriving DecidableEq

def updateSortedNotes (st : ArpState) : ArpState :=
  { st with sortedNotes := st.activeNotes.insertionSort (· ≤ ·) }

def arpAddNote (st : ArpState) (freq : ℚ) : ArpState :=
  updateSortedNotes { st with
    activeNotes := if freq ∈ st.activeNotes then st.activeNotes else st.activeNotes ++ [freq] }

def arpRemoveNote (st : ArpState) (freq : ℚ) : ArpState :=
  updateSortedNotes { st with activeNotes := st.activeNotes.filter (· ≠ freq) }

/-- `Arpeggiator.setEnabled`: disabling clears both note lists. -/
def arpSetEnabled (st : ArpState) (enabled : Bool) : ArpState :=
  if enabled then { st with isEnabled := true }
  else { st with isEnabled := false, activeNotes := [], sortedNotes := [] }

/-- `Arpeggiator.tick`.  `rand` stands for the `Math.floor(Math.random() *
length)` draw of the `random` pattern (reduced mod the length). -/
def tick (st : ArpState) (rand : ℕ) : Option (List ℚ) × ArpState :=
  if st.isEnabled = false ∨ st.sortedNotes.length = 0 then (none, st)
  else
    match st.pattern with
    | .up =>
      let i := st.index % st.sortedNotes.length
      (some [st.sortedNotes.getD i 0], { st with index := i + 1 })
    | .down =>
      let i := st.index % st.sortedNotes.length
      let downIndex := st.sortedNotes.length - 1 - i
      (some [st.sortedNotes.getD downIndex 0], { st with index := i + 1 })
    | .upDown =>
      if st.sortedNotes.length = 1 then (some [st.sortedNotes.getD 0 0], st)
      else
        let cycleLen := st.sortedNotes.length * 2 - 2
        let normIndex := st.index % cycleLen
        let note :=
          if normIndex < st.sortedNotes.length then st.sortedNotes.getD normIndex 0
          else
            st.sortedNotes.getD
              (st.sortedNotes.length - 1 - (normIndex - st.sortedNotes.length + 1)) 0
        (some [note], { st with index := st.index + 1 })
    | .random => (some [st.sortedNotes.getD (rand % st.sortedNotes.length) 0], st)
    | .chord => (some st.sortedNotes, st)

/-- Advance one clock tick, keeping only the state (the random draw is
irrelevant for the deterministic patterns studied here). -/
def tickState (st : ArpState) : ArpState := (tick st 0).2

/-- The notes emitted on the k-th tick after state `st`. -/
def emitAt (st : ArpState) (k : ℕ) : Option (List ℚ) := (tick (tickState^[k] st) 0).1

/-- An enabled upDown arpeggiator holding `l`, at step index `k`. -/
def upDownStateAt (l : List ℚ) (k : ℕ) : ArpState :=
  { activeNotes := l, sortedNotes := l, pattern := .upDown, index := k, isEnabled := true }

/-- An enabled upDown arpeggiator holding `l`, at step index 0. -/
def upDownState (l : List ℚ) : ArpState := upDownStateAt l 0

/-- The held-set position the upDown pattern emits at raw step index `k`
(for at least two held notes): ascending through the first `N` indices of the
cycle, mirrored descent on the rest. -/
def upDownIdx (N k : ℕ) : ℕ :=
  if k % (N * 2 - 2) < N then k % (N * 2 - 2)
  else N - 1 - (k % (N * 2 - 2) - N + 1)

/-! ## AudioEngine (the unnamed AudioEngine.ts source)

Audio resources (synths, gains, players, the recorder and the transport) are
external collaborators; what the model keeps is the bookkeeping the engine
itself performs: the `voices` and `activeArpTouches` maps, the arpeggiator
state, the four loop tracks and the master loop duration.  A `Voice` is
reduced to its frequency and gain target; a captured audio buffer to its
duration (the only attribute the engine reads).  JS `Map`s are association
lists in insertion order.  Operations that would throw a `TypeError` in the
source (indexing a missing track) return `Except.error`. -/

structure Voice where
  frequency : ℚ
  volume : ℚ
deriving DecidableEq

structure GhostEvent where
  time : ℚ
  x : ℚ
  y : ℚ
  id : ℕ
  color : String
deriving DecidableEq

structure LoopTrack where
  audioBuffer : Option ℚ
  playerBuffer : Option ℚ
  playerMuted : Bool
  playerSynced : Bool
  ghostEvents : List GhostEvent
  isRecording : Bool
  isPlaying : Bool
  volume : ℚ
  color : String
deriving DecidableEq

structure EngineState where
  voices : List (ℕ × List Voice)
  activeArpTouches : List (ℕ × List ℚ)
  arp : ArpState
  tracks : List LoopTrack
  recorderRunning : Bool
  masterLoopDuration : Option ℚ
deriving DecidableEq

def mapGet {α : Type} (m : List (ℕ × α)) (k : ℕ) : Option α :=
  (m.find? (fun p => p.1 == k)).map Prod.snd

def mapSet {α : Type} (m : List (ℕ × α)) (k : ℕ) (v : α) : List (ℕ × α) :=
  if (m.find? (fun p => p.1 == k)).isSome then
    m.map (fun p => if p.1 == k then (k, v) else p)
  else m ++ [(k, v)]

def mapDelete {α : Type} (m : List (ℕ × α)) (k : ℕ) : List (ℕ × α) :=
  m.filter (fun p => p.1 != k)

def initTrack (color : String) : LoopTrack :=
  { audioBuffer := none, playerBuffer := none, playerMuted := false, playerSynced := false,
    ghostEvents := [], isRecording := false, isPlaying := false, volume := 7/10, color := color }

/-- The engine as built by the constructor: empty maps, a disabled
arpeggiator, four fresh tracks, no master loop duration. -/
def initEngine : EngineState :=
  { voices := [], activeArpTouches := [],
    arp := { activeNotes := [], sortedNotes := [], pattern := .up, index := 0, isEnabled := false },
    tracks := [initTrack "#00f0ff", initTrack "#ff0055", initTrack "#ccff00", initTrack "#aa00ff"],
    recorderRunning := false, masterLoopDuration := none }

/-- `AudioEngine.setArpEnabled` just forwards to the arpeggiator. -/
def setArpEnabled (st : EngineState) (enabled : Bool) : EngineState :=
  { st with arp := arpSetEnabled st.arp enabled }

/-- `AudioEngine.updateNote`.  The `frequency: number | number[]` argument is
normalised to a list.  With the arpeggiator enabled the old registration is
diffed out of the held set and the new frequencies added; otherwise existing
voices are retargeted pointwise (index beyond the new list: untouched). -/
def updateNote (st : EngineState) (touchId : ℕ) (freqs : List ℚ) (volume : ℚ) : EngineState :=
  if st.arp.isEnabled then
    let st1 :=
      match mapGet st.activeArpTouches touchId with
      | some oldFreqs => { st with arp := oldFreqs.foldl arpRemoveNote st.arp }
      | none => st
    { st1 with
      arp := freqs.foldl arpAddNote st1.arp,
      activeArpTouches := mapSet st1.activeArpTouches touchId freqs }
  else
    match mapGet st.voices touchId with
    | some voices =>
      { st with voices := (mapSet st.voices touchId
          (voices.enum.map (fun p =>
            if p.1 < freqs.length then { frequency := freqs.getD p.1 0, volume := volume } else p.2))) }
    | none => st

/-- `AudioEngine.startNote`. -/
def startNote (st : EngineState) (touchId : ℕ) (freqs : List ℚ) (volume : ℚ) : EngineState :=
  if (mapGet st.voices touchId).isSome then updateNote st touchId freqs volume
  else if st.arp.isEnabled then
    { st with
      arp := freqs.foldl arpAddNote st.arp,
      activeArpTouches := mapSet st.activeArpTouches touchId freqs }
  else
    { st with voices := mapSet st.voices touchId (freqs.map (fun f => ⟨f, volume⟩)) }

/-- `AudioEngine.stopNote`: arpeggiator registration removed first (when
enabled), then any sustained voices are released and dropped from the map. -/
def stopNote (st : EngineState) (touchId : ℕ) : EngineState :=
  let st1 :=
    if st.arp.isEnabled then
      let st2 :=
        match mapGet st.activeArpTouches touchId with
        | some oldFreqs => { st with arp := oldFreqs.foldl arpRemoveNote st.arp }
        | none => st
      { st2 with activeArpTouches := mapDelete st2.activeArpTouches touchId }
    else st
  match mapGet st1.voices touchId with
  | some _ => { st1 with voices := mapDelete st1.voices touchId }
  | none => st1

/-- `AudioEngine.startRecording`: rejected outright while any track records;
otherwise the indexed track (a `TypeError` when absent) is cleared and armed
and the shared recorder started. -/
def startRecording (st : EngineState) (trackIndex : ℕ) : Except Unit EngineState :=
  if st.tracks.any (·.isRecording) then .ok st
  else if h : trackIndex < st.tracks.length then
    let track1 := { st.tracks[trackIndex] with
      playerSynced := false, ghostEvents := [], isRecording := true }
    .ok { st with tracks := st.tracks.set trackIndex track1, recorderRunning := true }
  else .error ()

/-- `AudioEngine.recordTouchEvent`; `now` is the `Tone.now()` timestamp. -/
def recordTouchEvent (st : EngineState) (trackIndex : ℕ) (now x y : ℚ) (id : ℕ)
    (color : String) : Except Unit EngineState :=
  if h : trackIndex < st.tracks.length then
    let track := st.tracks[trackIndex]
    if track.isRecording then
      let track1 := { track with ghostEvents := track.ghostEvents ++ [⟨now, x, y, id, color⟩] }
      .ok { st with tracks := st.tracks.set trackIndex track1 }
    else .ok st
  else .error ()

/-- `AudioEngine.stopRecording`; `now` is `Tone.now()` at the stop call and
`capture` the combined outcome of `recorder.stop()` and the buffer load
(`.ok duration` on success).  On the first finished take the master loop
duration is fixed and the track's ghost events shifted to be relative to the
recording start `now - duration`; on later takes they are additionally
reduced by the JS `%` modulo the master duration.  A capture failure is
caught: only the `isRecording` flag (already cleared) changes. -/
def stopRecording (st : EngineState) (trackIndex : ℕ) (now : ℚ) (capture : Except Unit ℚ) :
    Except Unit EngineState :=
  if h : trackIndex < st.tracks.length then
    let track := st.tracks[trackIndex]
    if track.isRecording = false then .ok st
    else
      let track1 := { track with isRecording := false }
      match capture with
      | .error _ =>
        .ok { st with tracks := st.tracks.set trackIndex track1, recorderRunning := false }
      | .ok duration =>
        match st.masterLoopDuration with
        | none =>
          let startTime := now - duration
          let events2 := track1.ghostEvents.map (fun e => { e with time := e.time - startTime })
          let track2 := { track1 with ghostEvents := events2, audioBuffer := some duration, playerBuffer := some duration, playerSynced := true, isPlaying := true }
          .ok { st with masterLoopDuration := some duration, tracks := st.tracks.set trackIndex track2, recorderRunning := false }
        | some master =>
          let startTime := now - duration
          let events2 := track1.ghostEvents.map (fun e => { e with time := jsMod (e.time - startTime) master })
          let track2 := { track1 with ghostEvents := events2, audioBuffer := some duration, playerBuffer := some duration, playerSynced := true, isPlaying := true }
          .ok { st with tracks := st.tracks.set trackIndex track2, recorderRunning := false }
  else .error ()

/-- `AudioEngine.toggleTrackPlayback`: mute/unmute, keeping transport sync. -/
def toggleTrackPlayback (st : EngineState) (trackIndex : ℕ) : Except Unit EngineState :=
  if h : trackIndex < st.tracks.length then
    let track := st.tracks[trackIndex]
    if track.isPlaying then
      let track1 := { track with playerMuted := true, isPlaying := false }
      .ok { st with tracks := st.tracks.set trackIndex track1 }
    else if track.playerBuffer.isSome then
      let track1 := { track with playerMuted := false, isPlaying := true }
      .ok { st with tracks := st.tracks.set trackIndex track1 }
    else .ok st
  else .error ()

/-- `AudioEngine.setTrackVolume`. -/
def setTrackVolume (st : EngineState) (trackIndex : ℕ) (vol : ℚ) : Except Unit EngineState :=
  if h : trackIndex < st.tracks.length then
    let track1 := { st.tracks[trackIndex] with volume := vol }
    .ok { st with tracks := st.tracks.set trackIndex track1 }
  else .error ()

deriving instance DecidableEq for Except

/-! ## Spec-side definitions used to compare claims against the code -/

/-- The nearest-interval selection as the claims describe it: the first
interval of the list whose absolute distance to the position is minimal. -/
def specNearest (n : ℤ) (l : List ℤ) : ℤ :=
  (l.find? (fun i => decide (∀ j ∈ l, |n - i| ≤ |n - j|))).getD 0

/-- The intra-octave position the code actually computes:
`Math.round(s % 12)`, plus 12 when negative — a value in [0, 12] that can
equal 12 (it is not reduced mod 12). -/
def normalizedNoteIndex {α : Type} [LinearOrderedField α] [FloorRing α] (s : α) : ℤ :=
  if round (jsMod s 12) < 0 then round (jsMod s 12) + 12 else round (jsMod s 12)

/-- Quantization exactly as claim C3 words it: intra-octave position
`round s` reduced mod 12 into [0, 12), then the nearest-interval search. -/
noncomputable def specQuantizeFrequency (freq rootFreq : ℝ) (sc : ScaleType) : ℝ :=
  if sc = .chromatic then freq
  else
    let s : ℝ := 12 * Real.logb 2 (freq / rootFreq)
    let octave : ℤ := ⌊s / 12⌋
    let pos : ℤ := (round s) % 12
    let interval : ℤ := specNearest pos (scaleIntervals sc)
    rootFreq * (2 : ℝ) ^ (((octave * 12 + interval : ℤ) : ℝ) / 12)

/-! ## Concrete engine runs used as witnesses and counterexamples -/

/-- The engine right after arming track 0 for recording. -/
def engineRec0 : EngineState := ((startRecording initEngine 0).toOption).getD initEngine

/-- A pointer holding a sustained 440 Hz voice (arpeggiator off). -/
def c1held : EngineState := startNote initEngine 1 [440] (4/5)

/-- The same engine right after `setArpEnabled(true)`. -/
def c1toggled : EngineState := setArpEnabled c1held true

/-- Track 0 recording with one ghost event at raw time 5. -/
def c2state : EngineState :=
  (((startRecording initEngine 0).bind fun s =>
      recordTouchEvent s 0 5 (1/2) (1/3) 1 "cyan").toOption).getD initEngine

/-- A full first take on track 0 (duration 2), then track 0 re-armed: the
track carries its previous buffer and playing flag while recording anew. -/
def c9mid : EngineState :=
  ((((startRecording initEngine 0).bind fun s =>
      stopRecording s 0 2 (.ok 2)).bind fun s => startRecording s 0).toOption).getD initEngine

/-- The re-recording of track 0 stopped with a failing capture. -/
def c9final : EngineState := ((stopRecording c9mid 0 5 (.error ())).toOption).getD initEngine

/-! # Theorems -/

theorem find?_eq_none_of_mapGet_none {α : Type} {m : List (ℕ × α)} {k : ℕ}
    (h : mapGet m k = none) : m.find? (fun p => p.1 == k) = none := by
  unfold mapGet at h
  cases hf : m.find? (fun p => p.1 == k) with
  | none => rfl
  | some v => rw [hf] at h; simp at h

theorem mapDelete_of_get_none {α : Type} {m : List (ℕ × α)} {k : ℕ}
    (h : mapGet m k = none) : mapDelete m k = m := by
  have h2 := List.find?_eq_none.mp (find?_eq_none_of_mapGet_none h)
  unfold mapDelete
  apply List.filter_eq_self.mpr
  intro p hp
  have h3 := h2 p hp
  simpa using h3

/-- C1 (amended): toggling the arpeggiator migrates nothing.
`setArpEnabled(true)` only raises the enabled flag: the `voices` map, the
`activeArpTouches` map and the held-note set are all left unchanged — in
particular a pointer that owns sounding voices keeps them sounding and its
frequencies are not moved into the held-note set.  `setArpEnabled(false)`
clears the held-note set but leaves both pointer maps unchanged. -/
theorem setArpEnabled_effect (st : EngineState) :
    (setArpEnabled st true).voices = st.voices ∧
    (setArpEnabled st true).activeArpTouches = st.activeArpTouches ∧
    (setArpEnabled st true).arp.activeNotes = st.arp.activeNotes ∧
    (setArpEnabled st true).arp.sortedNotes = st.arp.sortedNotes ∧
    (setArpEnabled st true).arp.isEnabled = true ∧
    (setArpEnabled st false).voices = st.voices ∧
    (setArpEnabled st false).activeArpTouches = st.activeArpTouches ∧
    (setArpEnabled st false).arp.activeNotes = [] ∧
    (setArpEnabled st false).arp.sortedNotes = [] ∧
    (setArpEnabled st false).arp.isEnabled = false := by
  simp [setArpEnabled, arpSetEnabled]

/-- C1 (counterexample): pointer 1 holds a sounding 440 Hz voice when
`setArpEnabled(true)` is called; afterwards 440 is not in the arpeggiator's
held-note set and the sustained voice is still in the voices map, refuting
the claimed atomic migration. -/
theorem setArpEnabled_no_migration :
    mapGet c1held.voices 1 = some [⟨440, 4/5⟩] ∧
    c1toggled.arp.isEnabled = true ∧
    ¬ ((440 : ℚ) ∈ c1toggled.arp.activeNotes) ∧
    ¬ ((440 : ℚ) ∈ c1toggled.arp.sortedNotes) ∧
    mapGet c1toggled.voices 1 = some [⟨440, 4/5⟩] := by
  with_unfolding_all decide

/-- C5: while any track is recording, `startRecording` returns the state
unchanged for every track index — the request is rejected, not queued. -/
theorem startRecording_rejected (st : EngineState)
    (h : st.tracks.any (fun t => t.isRecording) = true) (i : ℕ) :
    startRecording st i = .ok st := by
  simp [startRecording, h]

theorem startRecording_rejected_witness :
    engineRec0.tracks.any (fun t => t.isRecording) = true ∧
    startRecording engineRec0 1 = .ok engineRec0 :=
  ⟨by decide, startRecording_rejected engineRec0 (by decide) 1⟩

/-- C4 (amended): `stopNote` for a pointer with no voices and no arpeggiator
registration is a no-op, and so is `updateNote` while the arpeggiator is
disabled — but `updateNote` with the arpeggiator enabled registers the
pointer's frequencies (it behaves like `startNote`), and every looper
operation given a track index outside the existing tracks throws (modelled
as `Except.error`), except `startRecording` while a recording is active,
which is rejected before the track lookup. -/
theorem unknown_pointer_invalid_track (st : EngineState) (touchId i : ℕ)
    (freqs : List ℚ) (vol : ℚ) (now x y : ℚ) (pid : ℕ) (c : String)
    (cap : Except Unit ℚ) (hi : st.tracks.length ≤ i) :
    (st.arp.isEnabled = false → mapGet st.voices touchId = none →
      updateNote st touchId freqs vol = st) ∧
    (mapGet st.voices touchId = none → mapGet st.activeArpTouches touchId = none →
      stopNote st touchId = st) ∧
    (st.tracks.any (fun t => t.isRecording) = false → startRecording st i = .error ()) ∧
    (recordTouchEvent st i now x y pid c = .error ()) ∧
    (stopRecording st i now cap = .error ()) ∧
    (toggleTrackPlayback st i = .error ()) ∧
    (setTrackVolume st i vol = .error ()) := by
  have hlt : ¬ i < st.tracks.length := by omega
  refine ⟨?_, ?_, ?_, ?_, ?_, ?_, ?_⟩
  · intro h1 h2
    simp [updateNote, h1, h2]
  · intro h2 h3
    unfold stopNote
    cases harp : st.arp.isEnabled with
    | false => simp [h2]
    | true => simp [h2, h3, mapDelete_of_get_none h3]
  · intro h1
    simp [startRecording, h1, hlt]
  · simp [recordTouchEvent, hlt]
  · simp [stopRecording, hlt]
  · simp [toggleTrackPlayback, hlt]
  · simp [setTrackVolume, hlt]

theorem unknown_pointer_invalid_track_witness :
    (initEngine.tracks.length ≤ 4) ∧
    (updateNote initEngine 5 [440] (1/2) = initEngine) ∧
    (stopNote initEngine 5 = initEngine) ∧
    (setTrackVolume initEngine 4 (1/2) = .error ()) :=
  ⟨by decide,
   (unknown_pointer_invalid_track initEngine 5 4 [440] (1/2) 0 0 0 0 "" (.ok 1)
      (by decide)).1 (by decide) (by decide),
   (unknown_pointer_invalid_track initEngine 5 4 [440] (1/2) 0 0 0 0 "" (.ok 1)
      (by decide)).2.1 (by decide) (by decide),
   (unknown_pointer_invalid_track initEngine 5 4 [440] (1/2) 0 0 0 0 "" (.ok 1)
      (by decide)).2.2.2.2.2.2⟩

/-- C4 (counterexample): `startRecording` with track index 4 (no such track)
throws instead of being a no-op, and `updateNote` for a pointer with no
voices and no registration does change state once the arpeggiator is enabled
(it registers the pointer). -/
theorem unknown_pointer_invalid_track_counterexample :
    startRecording initEngine 4 = .error () ∧
    ¬ (updateNote (setArpEnabled initEngine true) 5 [440] (1/2) =
        setArpEnabled initEngine true) := by
  with_unfolding_all decide

/-! ## The JS remainder: range facts -/

theorem jsMod_lt {α : Type} [LinearOrderedField α] [FloorRing α] (a b : α) (hb : 0 < b) :
    -b < jsMod a b ∧ jsMod a b < b := by
  unfold jsMod jsTrunc
  by_cases h : 0 ≤ a / b
  · rw [if_pos h]
    have h1 : (⌊a / b⌋ : α) ≤ a / b := Int.floor_le _
    have h2 : a / b < ⌊a / b⌋ + 1 := Int.lt_floor_add_one _
    rw [le_div_iff₀ hb] at h1
    rw [div_lt_iff₀ hb] at h2
    constructor <;> nlinarith
  · rw [if_neg h]
    push_neg at h
    have h1 : a / b ≤ ⌈a / b⌉ := Int.le_ceil _
    have h2 : (⌈a / b⌉ : α) < a / b + 1 := Int.ceil_lt_add_one _
    rw [div_le_iff₀ hb] at h1
    have h2' : (⌈a / b⌉ : α) - 1 < a / b := by linarith
    rw [lt_div_iff₀ hb] at h2'
    constructor <;> nlinarith

theorem jsMod_nonneg {α : Type} [LinearOrderedField α] [FloorRing α] (a b : α)
    (ha : 0 ≤ a) (hb : 0 < b) : 0 ≤ jsMod a b := by
  unfold jsMod jsTrunc
  have h : 0 ≤ a / b := div_nonneg ha hb.le
  rw [if_pos h]
  have h1 : (⌊a / b⌋ : α) ≤ a / b := Int.floor_le _
  rw [le_div_iff₀ hb] at h1
  nlinarith

theorem getD_set_self {α : Type} (l : List α) (i : ℕ) (x d : α) (h : i < l.length) :
    (l.set i x).getD i d = x := by
  rw [List.getD_eq_getElem _ _ (by simpa using h)]
  exact List.getElem_set_self _

/-- C9 (amended): a capture failure in `stopRecording` is caught, not
propagated: the call returns normally, and the only state change is that the
track's `isRecording` flag is cleared.  In particular `masterLoopDuration`
stays `null` when this was the attempted first recording (a retry can still
fix the loop length) — but a track that already carried a buffer keeps that
buffer and its playing flag (it does not end bufferless and stopped). -/
theorem stopRecording_failure_caught (st : EngineState) (i : ℕ) (now : ℚ)
    (hi : i < st.tracks.length)
    (hrec : (st.tracks.getD i (initTrack "")).isRecording = true) :
    stopRecording st i now (.error ()) =
      .ok { st with
        tracks := st.tracks.set i { st.tracks.getD i (initTrack "") with isRecording := false },
        recorderRunning := false } := by
  have hg : st.tracks.getD i (initTrack "") = st.tracks[i] := List.getD_eq_getElem _ _ hi
  rw [hg] at hrec ⊢
  unfold stopRecording
  rw [dif_pos hi]
  simp [hrec]

theorem stopRecording_failure_caught_witness :
    0 < engineRec0.tracks.length ∧
    (engineRec0.tracks.getD 0 (initTrack "")).isRecording = true ∧
    stopRecording engineRec0 0 3 (.error ()) =
      .ok { engineRec0 with
        tracks := engineRec0.tracks.set 0
          { engineRec0.tracks.getD 0 (initTrack "") with isRecording := false },
        recorderRunning := false } :=
  ⟨by decide, by decide, stopRecording_failure_caught engineRec0 0 3 (by decide) (by decide)⟩

/-- C9 (counterexample): track 0 already holds a finished take (buffer of
duration 2, playing) and is re-recorded; stopping that re-recording with a
failing capture is caught, yet the track still has an audio buffer attached
and `isPlaying = true`, refuting the claimed bufferless/stopped end state. -/
theorem stopRecording_failure_keeps_old_buffer :
    (c9mid.tracks.getD 0 (initTrack "")).isRecording = true ∧
    stopRecording c9mid 0 5 (.error ()) = .ok c9final ∧
    (c9final.tracks.getD 0 (initTrack "")).audioBuffer = some 2 ∧
    (c9final.tracks.getD 0 (initTrack "")).isPlaying = true := by
  with_unfolding_all decide

/-- C2: a successful `stopRecording` of the recording track fixes the master
loop duration on a first take and normalizes the captured ghost events into
the loop window.  The hypothesis `hwin` states that the raw event timestamps
fall inside the captured window `[now - d, now)` — the recorder's contract,
since recording spans that window and the events were logged during it.
First take (`masterLoopDuration` null): the duration becomes the buffer's
duration `d` and every normalized time lands in `[0, d)`.  Later take: the
master duration `m` is kept and every normalized time lands in `[0, m)`. -/
theorem stopRecording_success_normalizes (st : EngineState) (i : ℕ) (now d : ℚ)
    (hi : i < st.tracks.length)
    (hrec : (st.tracks.getD i (initTrack "")).isRecording = true)
    (hd : 0 < d)
    (hwin : ∀ e ∈ (st.tracks.getD i (initTrack "")).ghostEvents,
      now - d ≤ e.time ∧ e.time < now) :
    (st.masterLoopDuration = none →
      ∃ st2, stopRecording st i now (.ok d) = .ok st2 ∧
        st2.masterLoopDuration = some d ∧
        ∀ e ∈ (st2.tracks.getD i (initTrack "")).ghostEvents, 0 ≤ e.time ∧ e.time < d) ∧
    (∀ m, st.masterLoopDuration = some m → 0 < m →
      ∃ st2, stopRecording st i now (.ok d) = .ok st2 ∧
        st2.masterLoopDuration = some m ∧
        ∀ e ∈ (st2.tracks.getD i (initTrack "")).ghostEvents, 0 ≤ e.time ∧ e.time < m) := by
  have hg : st.tracks.getD i (initTrack "") = st.tracks[i] := List.getD_eq_getElem _ _ hi
  rw [hg] at hrec hwin
  constructor
  · intro hm
    refine ⟨{ st with
        masterLoopDuration := some d,
        recorderRunning := false,
        tracks := (st.tracks.set i
          { st.tracks[i] with
            isRecording := false,
            ghostEvents := ((st.tracks[i]).ghostEvents.map
              (fun e => { e with time := e.time - (now - d) })),
            audioBuffer := some d, playerBuffer := some d,
            playerSynced := true, isPlaying := true }) }, ?_, ?_, ?_⟩
    · unfold stopRecording
      rw [dif_pos hi]
      simp [hrec, hm]
    · rfl
    · intro e he
      rw [getD_set_self _ _ _ _ hi] at he
      dsimp only at he
      simp only [List.mem_map] at he
      obtain ⟨e0, he0, rfl⟩ := he
      obtain ⟨h1, h2⟩ := hwin e0 he0
      dsimp only
      constructor
      · linarith
      · linarith
  · intro m hm hmpos
    refine ⟨{ st with
        recorderRunning := false,
        tracks := (st.tracks.set i
          { st.tracks[i] with
            isRecording := false,
            ghostEvents := ((st.tracks[i]).ghostEvents.map
              (fun e => { e with time := jsMod (e.time - (now - d)) m })),
            audioBuffer := some d, playerBuffer := some d,
            playerSynced := true, isPlaying := true }) }, ?_, ?_, ?_⟩
    · unfold stopRecording
      rw [dif_pos hi]
      simp [hrec, hm]
    · simpa using hm
    · intro e he
      rw [getD_set_self _ _ _ _ hi] at he
      dsimp only at he
      simp only [List.mem_map] at he
      obtain ⟨e0, he0, rfl⟩ := he
      obtain ⟨h1, h2⟩ := hwin e0 he0
      have hop : 0 ≤ e0.time - (now - d) := by linarith
      dsimp only
      constructor
      · exact jsMod_nonneg _ _ hop hmpos
      · exact (jsMod_lt _ _ hmpos).2

theorem stopRecording_success_normalizes_witness :
    0 < c2state.tracks.length ∧
    (c2state.tracks.getD 0 (initTrack "")).isRecording = true ∧
    (0 : ℚ) < 2 ∧
    (∀ e ∈ (c2state.tracks.getD 0 (initTrack "")).ghostEvents,
      (6 : ℚ) - 2 ≤ e.time ∧ e.time < 6) ∧
    c2state.masterLoopDuration = none ∧
    (∃ st2, stopRecording c2state 0 6 (.ok 2) = .ok st2 ∧
      st2.masterLoopDuration = some 2 ∧
      ∀ e ∈ (st2.tracks.getD 0 (initTrack "")).ghostEvents, 0 ≤ e.time ∧ e.time < 2) :=
  ⟨by decide, by decide, by decide, by with_unfolding_all decide, by decide,
   (stopRecording_success_normalizes c2state 0 6 2 (by decide) (by decide) (by decide)
      (by with_unfolding_all decide)).1 (by decide)⟩

/-! ## The upDown arpeggiator pattern -/

theorem tick_upDownStateAt (l : List ℚ) (k r : ℕ) (h2 : 2 ≤ l.length) :
    tick (upDownStateAt l k) r =
      (some [l.getD (upDownIdx l.length k) 0], upDownStateAt l (k + 1)) := by
  have h0 : ¬ (l.length = 0) := by omega
  have h1 : ¬ (l.length = 1) := by omega
  unfold tick upDownStateAt upDownIdx
  simp only []
  rw [if_neg (by simp [h0])]
  rw [if_neg h1]
  by_cases hc : k % (l.length * 2 - 2) < l.length
  · rw [if_pos hc, if_pos hc]
  · rw [if_neg hc, if_neg hc]

theorem tick_upDown_single (l : List ℚ) (k r : ℕ) (h1 : l.length = 1) :
    tick (upDownStateAt l k) r = (some [l.getD 0 0], upDownStateAt l k) := by
  have h0 : ¬ (l.length = 0) := by omega
  unfold tick upDownStateAt
  simp only []
  rw [if_neg (by simp [h0])]
  rw [if_pos h1]

theorem tickState_upDownStateAt (l : List ℚ) (k : ℕ) (h2 : 2 ≤ l.length) :
    tickState (upDownStateAt l k) = upDownStateAt l (k + 1) := by
  unfold tickState
  rw [tick_upDownStateAt l k 0 h2]

theorem iterate_upDownStateAt (l : List ℚ) (h2 : 2 ≤ l.length) (k : ℕ) :
    tickState^[k] (upDownState l) = upDownStateAt l k := by
  induction k with
  | zero => rfl
  | succ n ih => rw [Function.iterate_succ_apply', ih, tickState_upDownStateAt _ _ h2]

theorem emitAt_upDown (l : List ℚ) (k : ℕ) (h2 : 2 ≤ l.length) :
    emitAt (upDownState l) k = some [l.getD (upDownIdx l.length k) 0] := by
  unfold emitAt
  rw [iterate_upDownStateAt l h2 k, tick_upDownStateAt l k 0 h2]

theorem upDownIdx_lt (N k : ℕ) (h2 : 2 ≤ N) : upDownIdx N k < N := by
  have hc : 0 < N * 2 - 2 := by omega
  have hj : k % (N * 2 - 2) < N * 2 - 2 := Nat.mod_lt _ hc
  unfold upDownIdx
  split <;> omega

theorem upDownIdx_period (N k : ℕ) : upDownIdx N (k + (N * 2 - 2)) = upDownIdx N k := by
  unfold upDownIdx
  rw [Nat.add_mod_right]

theorem upDownIdx_first (N j : ℕ) (h2 : 2 ≤ N) (hj : j < N * 2 - 2) :
    upDownIdx N j = if j < N then j else N * 2 - 2 - j := by
  unfold upDownIdx
  rw [Nat.mod_eq_of_lt hj]
  by_cases h : j < N
  · rw [if_pos h, if_pos h]
  · rw [if_neg h, if_neg h]
    omega

theorem upDownIdx_succ_ne (N k : ℕ) (h2 : 2 ≤ N) : upDownIdx N (k + 1) ≠ upDownIdx N k := by
  have hc : 0 < N * 2 - 2 := by omega
  have hj : k % (N * 2 - 2) < N * 2 - 2 := Nat.mod_lt _ hc
  have hsucc : (k + 1) % (N * 2 - 2) =
      if k % (N * 2 - 2) + 1 = N * 2 - 2 then 0 else k % (N * 2 - 2) + 1 := by
    rw [Nat.add_mod]
    by_cases h : k % (N * 2 - 2) + 1 = N * 2 - 2
    · rw [if_pos h]
      rw [Nat.one_mod_eq_one.mpr (by omega)]
      rw [h, Nat.mod_self]
    · rw [if_neg h]
      rw [Nat.one_mod_eq_one.mpr (by omega)]
      rw [Nat.mod_eq_of_lt (by omega)]
  unfold upDownIdx
  rw [hsucc]
  by_cases h : k % (N * 2 - 2) + 1 = N * 2 - 2
  · rw [if_pos h]
    split <;> split <;> omega
  · rw [if_neg h]
    split <;> split <;> omega

theorem getD_ne_of_sorted (l : List ℚ) (hs : l.Sorted (· < ·)) (a b : ℕ)
    (ha : a < l.length) (hb : b < l.length) (hab : a ≠ b) :
    l.getD a 0 ≠ l.getD b 0 := by
  rw [List.getD_eq_getElem _ _ ha, List.getD_eq_getElem _ _ hb]
  have hsm := List.Sorted.get_strictMono hs
  intro h
  rcases Nat.lt_or_ge a b with hlt | hge
  · have := hsm (show (⟨a, ha⟩ : Fin l.length) < ⟨b, hb⟩ from hlt)
    simp only [List.get_eq_getElem] at this
    exact absurd h (ne_of_lt this)
  · have hlt : b < a := by omega
    have := hsm (show (⟨b, hb⟩ : Fin l.length) < ⟨a, ha⟩ from hlt)
    simp only [List.get_eq_getElem] at this
    exact absurd h.symm (ne_of_lt this)

/-- C6: the upDown pattern over a fixed held set of `N` sorted distinct
notes.  For `N = 1` every tick emits the single note.  For `N ≥ 2`, counting
ticks from a fresh index: the emissions are periodic with cycle length
`2N - 2`; one cycle emits positions `0, …, N-1, N-2, …, 1` (a palindrome
visiting both endpoints exactly once per cycle); and no two consecutive
ticks — including across the cycle boundary — emit the same note. -/
theorem arp_upDown_palindrome (l : List ℚ) (hs : l.Sorted (· < ·)) :
    (l.length = 1 → ∀ k, emitAt (upDownState l) k = some [l.getD 0 0]) ∧
    (2 ≤ l.length →
      (∀ k, emitAt (upDownState l) (k + (l.length * 2 - 2)) = emitAt (upDownState l) k) ∧
      ((List.range (l.length * 2 - 2)).map (fun k => emitAt (upDownState l) k) =
        ((List.range l.length).map (fun j => some [l.getD j 0]) ++
         (List.range (l.length - 2)).map (fun j => some [l.getD (l.length - 2 - j) 0]))) ∧
      (∀ k, emitAt (upDownState l) (k + 1) ≠ emitAt (upDownState l) k)) := by
  constructor
  · intro h1 k
    have hfix : tickState (upDownState l) = upDownState l := by
      unfold tickState
      rw [show upDownState l = upDownStateAt l 0 from rfl, tick_upDown_single _ _ _ h1]
    have hiter : tickState^[k] (upDownState l) = upDownState l :=
      Function.iterate_fixed hfix k
    unfold emitAt
    rw [hiter, show upDownState l = upDownStateAt l 0 from rfl, tick_upDown_single _ _ _ h1]
  · intro h2
    refine ⟨?_, ?_, ?_⟩
    · intro k
      rw [emitAt_upDown _ _ h2, emitAt_upDown _ _ h2, upDownIdx_period]
    · have hsplit : l.length * 2 - 2 = l.length + (l.length - 2) := by omega
      rw [hsplit, List.range_add, List.map_append, List.map_map]
      congr 1
      · apply List.map_congr_left
        intro j hj
        rw [List.mem_range] at hj
        rw [emitAt_upDown _ _ h2, upDownIdx_first _ _ h2 (by omega), if_pos hj]
      · apply List.map_congr_left
        intro j hj
        rw [List.mem_range] at hj
        simp only [Function.comp]
        rw [emitAt_upDown _ _ h2, upDownIdx_first _ _ h2 (by omega),
          if_neg (by omega)]
        congr 3
        omega
    · intro k
      rw [emitAt_upDown _ _ h2, emitAt_upDown _ _ h2]
      have hne := upDownIdx_succ_ne l.length k h2
      have hlt1 := upDownIdx_lt l.length (k + 1) h2
      have hlt2 := upDownIdx_lt l.length k h2
      have hd := getD_ne_of_sorted l hs _ _ hlt1 hlt2 hne
      intro hEq
      rw [Option.some.injEq, List.cons.injEq] at hEq
      exact hd hEq.1

theorem arp_upDown_palindrome_witness :
    ([1, 2, 3] : List ℚ).Sorted (· < ·) ∧
    emitAt (upDownState [1, 2, 3]) (0 + (([1, 2, 3] : List ℚ).length * 2 - 2)) =
      emitAt (upDownState [1, 2, 3]) 0 ∧
    emitAt (upDownState [1, 2, 3]) 1 ≠ emitAt (upDownState [1, 2, 3]) 0 :=
  ⟨by with_unfolding_all decide,
   ((arp_upDown_palindrome [1, 2, 3] (by with_unfolding_all decide)).2 (by decide)).1 0,
   ((arp_upDown_palindrome [1, 2, 3] (by with_unfolding_all decide)).2 (by decide)).2.2 0⟩

/-! ## Chord tables (C7) -/

/-- C7: `getChordFrequencies` with `off` returns exactly the base frequency;
each named quality maps its fixed semitone-interval list over
`baseFreq * 2^(interval/12)`, for every scale and root (independence);
`triad` under the chromatic scale is the major triad {0,4,7}; and the only
chord types outside the fixed table are `off` and `triad`, both handled, so
the `[baseFreq]` fallback for unsupported combinations holds vacuously. -/
theorem getChordFrequencies_table (f r : ℝ) (sc : ScaleType) :
    getChordFrequencies f r sc .off = [f] ∧
    getChordFrequencies f r sc .maj7 =
      ([0, 4, 7, 11] : List ℤ).map (fun s => f * (2 : ℝ) ^ ((s : ℝ) / 12)) ∧
    getChordFrequencies f r sc .m7 =
      ([0, 3, 7, 10] : List ℤ).map (fun s => f * (2 : ℝ) ^ ((s : ℝ) / 12)) ∧
    getChordFrequencies f r sc .dom7 =
      ([0, 4, 7, 10] : List ℤ).map (fun s => f * (2 : ℝ) ^ ((s : ℝ) / 12)) ∧
    getChordFrequencies f r sc .sus2 =
      ([0, 2, 7] : List ℤ).map (fun s => f * (2 : ℝ) ^ ((s : ℝ) / 12)) ∧
    getChordFrequencies f r sc .sus4 =
      ([0, 5, 7] : List ℤ).map (fun s => f * (2 : ℝ) ^ ((s : ℝ) / 12)) ∧
    getChordFrequencies f r sc .aug =
      ([0, 4, 8] : List ℤ).map (fun s => f * (2 : ℝ) ^ ((s : ℝ) / 12)) ∧
    getChordFrequencies f r sc .dim =
      ([0, 3, 6] : List ℤ).map (fun s => f * (2 : ℝ) ^ ((s : ℝ) / 12)) ∧
    getChordFrequencies f r sc .maj9 =
      ([0, 4, 7, 11, 14] : List ℤ).map (fun s => f * (2 : ℝ) ^ ((s : ℝ) / 12)) ∧
    getChordFrequencies f r sc .m9 =
      ([0, 3, 7, 10, 14] : List ℤ).map (fun s => f * (2 : ℝ) ^ ((s : ℝ) / 12)) ∧
    getChordFrequencies f r .chromatic .triad =
      ([0, 4, 7] : List ℤ).map (fun s => f * (2 : ℝ) ^ ((s : ℝ) / 12)) ∧
    (∀ ct : ChordType, CHORD_INTERVALS ct = none → ct = .off ∨ ct = .triad) := by
  refine ⟨rfl, rfl, rfl, rfl, rfl, rfl, rfl, rfl, rfl, rfl, rfl, ?_⟩
  intro ct h
  cases ct <;> simp_all [CHORD_INTERVALS]

/-! ## Integer arithmetic facts about the JS operators -/

theorem neg_tmod_twelve (a : ℤ) : (-a).tmod 12 = -(a.tmod 12) := by
  rw [Int.tmod_def, Int.tmod_def, Int.neg_tdiv]
  ring

theorem tmod_twelve_cases (k : ℤ) : k.tmod 12 = k % 12 ∨ k.tmod 12 = k % 12 - 12 := by
  rcases le_or_lt 0 k with h | h
  · left
    exact Int.tmod_eq_emod h (by norm_num)
  · have h1 : (-k).tmod 12 = (-k) % 12 := Int.tmod_eq_emod (by omega) (by norm_num)
    have h2 : (-(-k)).tmod 12 = -((-k).tmod 12) := neg_tmod_twelve (-k)
    simp only [neg_neg] at h2
    omega

theorem tmod_twelve_small (t : ℤ) (h1 : -12 < t) (h2 : t < 12) : t.tmod 12 = t := by
  rcases le_or_lt 0 t with h | h
  · rw [Int.tmod_eq_emod h (by norm_num)]
    omega
  · have hn : (-t).tmod 12 = (-t) % 12 := Int.tmod_eq_emod (by omega) (by norm_num)
    have h2' : (-(-t)).tmod 12 = -((-t).tmod 12) := neg_tmod_twelve (-t)
    simp only [neg_neg] at h2'
    omega

/-- The diatonic branch's `((x % 12) + 12) % 12` normalization of the
(integer) quantized semitone value is the mathematical residue mod 12. -/
theorem tmod_twelve_bounds (k : ℤ) : -12 < k.tmod 12 ∧ k.tmod 12 < 12 := by
  rcases le_or_lt 0 k with h | h
  · rw [Int.tmod_eq_emod h (by norm_num)]
    omega
  · have h1 : (-k).tmod 12 = (-k) % 12 := Int.tmod_eq_emod (by omega) (by norm_num)
    have h2 : (-(-k)).tmod 12 = -((-k).tmod 12) := neg_tmod_twelve (-k)
    simp only [neg_neg] at h2
    omega

theorem tmod_normalize (k : ℤ) :
    Int.tmod (Int.tmod (Int.tmod k 12) 12 + 12) 12 = k % 12 := by
  have e2 : 0 ≤ k % 12 := Int.emod_nonneg k (by norm_num)
  have e3 : k % 12 < 12 := Int.emod_lt_of_pos k (by norm_num)
  have hb := tmod_twelve_bounds k
  rcases tmod_twelve_cases k with h | h
  · rw [h, tmod_twelve_small (k % 12) (by omega) (by omega),
      Int.tmod_eq_emod (show (0 : ℤ) ≤ k % 12 + 12 by omega) (by norm_num)]
    omega
  · rw [h, tmod_twelve_small (k % 12 - 12) (by omega) (by omega),
      Int.tmod_eq_emod (show (0 : ℤ) ≤ k % 12 - 12 + 12 by omega) (by norm_num)]
    omega

/-! ## The nearest-interval search on the concrete scales -/

theorem nearestInterval_mem_bounds (sc : ScaleType) :
    ∀ n ∈ Finset.Icc (0 : ℤ) 12,
      nearestInterval n (scaleIntervals sc) ∈ scaleIntervals sc ∧
      0 ≤ nearestInterval n (scaleIntervals sc) ∧
      nearestInterval n (scaleIntervals sc) < 12 := by
  cases sc <;> decide

theorem nearestInterval_fixed (sc : ScaleType) :
    ∀ m ∈ scaleIntervals sc, nearestInterval m (scaleIntervals sc) = m := by
  cases sc <;> decide

theorem findIntervalIndex_exact (sc : ScaleType) :
    ∀ m ∈ Finset.Icc (0 : ℤ) 11, m ∈ scaleIntervals sc →
      0 ≤ findIntervalIndex m (scaleIntervals sc) ∧
      findIntervalIndex m (scaleIntervals sc) < ((scaleIntervals sc).length : ℤ) ∧
      (scaleIntervals sc).getD (findIntervalIndex m (scaleIntervals sc)).toNat 0 = m ∧
      ¬ (findIntervalIndex m (scaleIntervals sc) = -1) := by
  cases sc <;> decide

theorem normalizedNoteIndex_bounds {α : Type} [LinearOrderedField α] [FloorRing α] (s : α) :
    0 ≤ normalizedNoteIndex s ∧ normalizedNoteIndex s ≤ 12 := by
  obtain ⟨hlo, hhi⟩ := jsMod_lt s 12 (by norm_num)
  have hr1 : round (jsMod s 12) ≤ 12 := by
    rw [round_eq]
    have h13 : jsMod s 12 + 1 / 2 < 13 := by linarith
    have := Int.floor_lt.mpr (show jsMod s 12 + 1 / 2 < ((13 : ℤ) : α) by push_cast; linarith)
    omega
  have hr2 : -12 ≤ round (jsMod s 12) := by
    rw [round_eq]
    apply Int.le_floor.mpr
    push_cast
    linarith
  unfold normalizedNoteIndex
  split <;> omega

theorem getNearestScaleNote_eq {α : Type} [LinearOrderedField α] [FloorRing α]
    (s : α) (sc : ScaleType) :
    getNearestScaleNote s sc =
      ⌊s / 12⌋ * 12 + nearestInterval (normalizedNoteIndex s) (scaleIntervals sc) := rfl

theorem getNearestScaleNote_emod_mem {α : Type} [LinearOrderedField α] [FloorRing α]
    (s : α) (sc : ScaleType) :
    (getNearestScaleNote s sc) % 12 ∈ scaleIntervals sc := by
  rw [getNearestScaleNote_eq]
  obtain ⟨h0, h12⟩ := normalizedNoteIndex_bounds s
  obtain ⟨hmem, hlo, hhi⟩ := nearestInterval_mem_bounds sc (normalizedNoteIndex s)
    (by rw [Finset.mem_Icc]; exact ⟨h0, h12⟩)
  have he : (⌊s / 12⌋ * 12 + nearestInterval (normalizedNoteIndex s) (scaleIntervals sc)) % 12
      = nearestInterval (normalizedNoteIndex s) (scaleIntervals sc) := by omega
  rw [he]
  exact hmem

/-- C10: for a non-chromatic scale the diatonic `triad` returns exactly
three frequencies, and its first element is the quantized base note —
`quantizeFrequency(baseFreq, rootFreq, scale)` — rather than `baseFreq`
itself (unlike `off` and the fixed qualities, whose first element is always
exactly `baseFreq`). -/
theorem getChordFrequencies_triad_rooted (f r : ℝ) (sc : ScaleType)
    (hsc : sc ≠ .chromatic) (hf : 0 < f) (hr : 0 < r) :
    (getChordFrequencies f r sc .triad).length = 3 ∧
    (getChordFrequencies f r sc .triad).getD 0 0 = quantizeFrequency f r sc := by
  unfold getChordFrequencies
  rw [if_neg (show ¬ (ChordType.triad = ChordType.off) by decide)]
  simp only [CHORD_INTERVALS]
  rw [if_neg hsc]
  set k := getNearestScaleNote (12 * Real.logb 2 (f / r)) sc with hk
  rw [tmod_normalize]
  have hmem : k % 12 ∈ scaleIntervals sc := getNearestScaleNote_emod_mem _ sc
  have e2 : 0 ≤ k % 12 := Int.emod_nonneg k (by norm_num)
  have e3 : k % 12 < 12 := Int.emod_lt_of_pos k (by norm_num)
  obtain ⟨hi0, hilen, hgd, hine⟩ := findIntervalIndex_exact sc (k % 12)
    (by rw [Finset.mem_Icc]; omega) hmem
  rw [if_neg hine]
  constructor
  · simp
  · simp only [List.map_cons, List.map_nil, if_true]
    rw [List.getD_cons_zero]
    rw [add_zero]
    have htm : (findIntervalIndex (k % 12) (scaleIntervals sc)).tmod
        ((scaleIntervals sc).length : ℤ) = findIntervalIndex (k % 12) (scaleIntervals sc) := by
      rw [Int.tmod_eq_emod hi0 (by omega)]
      exact Int.emod_eq_of_lt hi0 hilen
    have hfd : (findIntervalIndex (k % 12) (scaleIntervals sc)).fdiv
        ((scaleIntervals sc).length : ℤ) = 0 := by
      rw [Int.fdiv_eq_ediv _ (by omega)]
      exact Int.ediv_eq_zero_of_lt hi0 hilen
    rw [htm, hfd, hgd]
    rw [Int.fdiv_eq_ediv k (by norm_num)]
    have hexp : (k % 12 + (k / 12 + 0) * 12 : ℤ) = k := by omega
    rw [hexp]
    unfold quantizeFrequency
    rw [if_neg hsc]

theorem getChordFrequencies_triad_rooted_witness :
    ScaleType.major ≠ ScaleType.chromatic ∧ (0 : ℝ) < 3 ∧ (0 : ℝ) < 2 ∧
    (getChordFrequencies 3 2 .major .triad).length = 3 ∧
    (getChordFrequencies 3 2 .major .triad).getD 0 0 = quantizeFrequency 3 2 .major :=
  ⟨by decide, by norm_num, by norm_num,
   (getChordFrequencies_triad_rooted 3 2 .major (by decide) (by norm_num) (by norm_num)).1,
   (getChordFrequencies_triad_rooted 3 2 .major (by decide) (by norm_num) (by norm_num)).2⟩

/-! ## Casting the nearest-note computation between ℝ, ℚ and ℤ -/

theorem floor_intCast_div_twelve (k : ℤ) : ⌊(k : ℚ) / 12⌋ = k / 12 := by
  have h := Rat.floor_intCast_div_natCast k 12
  simpa using h

theorem jsMod_intCast_twelve (k : ℤ) : jsMod ((k : ℚ)) 12 = ((k.tmod 12 : ℤ) : ℚ) := by
  unfold jsMod jsTrunc
  rcases le_or_lt 0 k with h | h
  · rw [if_pos (div_nonneg (by exact_mod_cast h) (by norm_num))]
    rw [floor_intCast_div_twelve]
    rw [Int.tmod_eq_emod h (by norm_num)]
    have h2 : (12 : ℚ) * ((k / 12 : ℤ) : ℚ) + ((k % 12 : ℤ) : ℚ) = (k : ℚ) := by
      exact_mod_cast Int.ediv_add_emod k 12
    linarith
  · have hneg : ¬ (0 : ℚ) ≤ (k : ℚ) / 12 := by
      rw [not_le]
      apply div_neg_of_neg_of_pos _ (by norm_num)
      exact_mod_cast h
    rw [if_neg hneg]
    have hc : ⌈(k : ℚ) / 12⌉ = -((-k) / 12) := by
      rw [show (k : ℚ) / 12 = -(((-k : ℤ) : ℚ) / 12) by push_cast; ring]
      rw [Int.ceil_neg, floor_intCast_div_twelve]
    rw [hc]
    have ht : k.tmod 12 = -((-k) % 12) := by
      have h2 : (-(-k)).tmod 12 = -((-k).tmod 12) := neg_tmod_twelve (-k)
      simp only [neg_neg] at h2
      rw [h2, Int.tmod_eq_emod (by omega) (by norm_num)]
    rw [ht]
    have h2 : (12 : ℚ) * (((-k) / 12 : ℤ) : ℚ) + (((-k) % 12 : ℤ) : ℚ) = ((-k : ℤ) : ℚ) := by
      exact_mod_cast Int.ediv_add_emod (-k) 12
    push_cast at h2 ⊢
    linarith

theorem getNearestScaleNote_intCast (k : ℤ) (sc : ScaleType) :
    getNearestScaleNote ((k : ℚ)) sc = k / 12 * 12 + nearestInterval (k % 12) (scaleIntervals sc) := by
  rw [getNearestScaleNote_eq, floor_intCast_div_twelve]
  congr 2
  unfold normalizedNoteIndex
  rw [jsMod_intCast_twelve, round_intCast]
  have hb := tmod_twelve_bounds k
  have e2 : 0 ≤ k % 12 := Int.emod_nonneg k (by norm_num)
  have e3 : k % 12 < 12 := Int.emod_lt_of_pos k (by norm_num)
  rcases tmod_twelve_cases k with h | h
  · rw [if_neg (by omega)]
    omega
  · by_cases hneg : k.tmod 12 < 0
    · rw [if_pos hneg]
      omega
    · rw [if_neg hneg]
      omega

theorem getNearestScaleNote_int_fixed (k : ℤ) (sc : ScaleType)
    (hmem : k % 12 ∈ scaleIntervals sc) :
    getNearestScaleNote ((k : ℚ)) sc = k := by
  rw [getNearestScaleNote_intCast, nearestInterval_fixed sc _ hmem]
  omega

theorem jsTrunc_ratCast (q : ℚ) : jsTrunc ((q : ℝ)) = jsTrunc q := by
  unfold jsTrunc
  by_cases h : (0 : ℚ) ≤ q
  · rw [if_pos (show (0 : ℝ) ≤ (q : ℝ) by exact_mod_cast h), if_pos h, Rat.floor_cast]
  · rw [if_neg (show ¬ (0 : ℝ) ≤ (q : ℝ) by exact_mod_cast h), if_neg h, Rat.ceil_cast]

theorem jsMod_ratCast_twelve (q : ℚ) : jsMod ((q : ℝ)) 12 = ((jsMod q 12 : ℚ) : ℝ) := by
  unfold jsMod
  rw [show (q : ℝ) / 12 = ((q / 12 : ℚ) : ℝ) by push_cast; ring]
  rw [jsTrunc_ratCast]
  push_cast
  ring

theorem getNearestScaleNote_ratCast (q : ℚ) (sc : ScaleType) :
    getNearestScaleNote ((q : ℝ)) sc = getNearestScaleNote q sc := by
  rw [getNearestScaleNote_eq, getNearestScaleNote_eq]
  congr 2
  · rw [show (q : ℝ) / 12 = ((q / 12 : ℚ) : ℝ) by push_cast; ring, Rat.floor_cast]
  · unfold normalizedNoteIndex
    rw [jsMod_ratCast_twelve, Rat.round_cast]

theorem getNearestScaleNote_real_int_fixed (k : ℤ) (sc : ScaleType)
    (hmem : k % 12 ∈ scaleIntervals sc) :
    getNearestScaleNote ((k : ℝ)) sc = k := by
  rw [show ((k : ℝ)) = (((k : ℚ)) : ℝ) by push_cast; ring]
  rw [getNearestScaleNote_ratCast]
  exact getNearestScaleNote_int_fixed k sc hmem

/-- C8: `quantizeFrequency` is idempotent for every positive frequency and
root and every scale type: quantizing an already-quantized frequency returns
it unchanged.  A quantized value is `root·2^(k/12)` with `k mod 12` a scale
interval; re-quantizing recovers the exact semitone offset `k`, whose
nearest scale note is `k` itself. -/
theorem quantizeFrequency_idempotent (f r : ℝ) (hf : 0 < f) (hr : 0 < r) (sc : ScaleType) :
    quantizeFrequency (quantizeFrequency f r sc) r sc = quantizeFrequency f r sc := by
  by_cases hsc : sc = .chromatic
  · subst hsc
    unfold quantizeFrequency
    simp
  · have hq : quantizeFrequency f r sc =
        r * (2 : ℝ) ^ (((getNearestScaleNote (12 * Real.logb 2 (f / r)) sc : ℤ) : ℝ) / 12) := by
      unfold quantizeFrequency
      rw [if_neg hsc]
    set k := getNearestScaleNote (12 * Real.logb 2 (f / r)) sc with hk
    have hmem : k % 12 ∈ scaleIntervals sc := getNearestScaleNote_emod_mem _ sc
    have hs2 : 12 * Real.logb 2 (quantizeFrequency f r sc / r) = ((k : ℤ) : ℝ) := by
      rw [hq, mul_div_cancel_left₀ _ (ne_of_gt hr)]
      rw [Real.logb_rpow (by norm_num) (by norm_num)]
      field_simp
    have houter : quantizeFrequency (quantizeFrequency f r sc) r sc =
        r * (2 : ℝ) ^ (((getNearestScaleNote
          (12 * Real.logb 2 (quantizeFrequency f r sc / r)) sc : ℤ) : ℝ) / 12) := by
      unfold quantizeFrequency
      rw [if_neg hsc]
    rw [houter, hs2, getNearestScaleNote_real_int_fixed k sc hmem, hq]

theorem quantizeFrequency_idempotent_witness :
    (0 : ℝ) < 2 ∧ (0 : ℝ) < 1 ∧
    quantizeFrequency (quantizeFrequency 2 1 .major) 1 .major = quantizeFrequency 2 1 .major :=
  ⟨by norm_num, by norm_num,
   quantizeFrequency_idempotent 2 1 (by norm_num) (by norm_num) .major⟩

/-! ## The round-to-twelve edge of the intra-octave position (C3) -/

theorem s_value_edge :
    12 * Real.logb 2 ((2 : ℝ) ^ ((39 / 40 : ℝ)) / 1) = (((117 / 10 : ℚ)) : ℝ) := by
  rw [div_one, Real.logb_rpow (by norm_num) (by norm_num)]
  push_cast
  norm_num

theorem code_value_edge :
    quantizeFrequency ((2 : ℝ) ^ ((39 / 40 : ℝ))) 1 .major = (2 : ℝ) ^ ((11 / 12 : ℝ)) := by
  unfold quantizeFrequency
  rw [if_neg (by decide)]
  dsimp only
  rw [s_value_edge, getNearestScaleNote_ratCast]
  rw [show getNearestScaleNote ((117 / 10 : ℚ)) ScaleType.major = 11 by
    with_unfolding_all decide]
  norm_num

theorem spec_value_edge :
    specQuantizeFrequency ((2 : ℝ) ^ ((39 / 40 : ℝ))) 1 .major = 1 := by
  unfold specQuantizeFrequency
  rw [if_neg (by decide)]
  dsimp only
  rw [s_value_edge]
  rw [show round ((((117 / 10 : ℚ)) : ℝ)) = 12 by
    rw [Rat.round_cast]
    with_unfolding_all decide]
  rw [show ⌊(((117 / 10 : ℚ)) : ℝ) / 12⌋ = 0 by
    rw [show (((117 / 10 : ℚ)) : ℝ) / 12 = (((117 / 120 : ℚ)) : ℝ) by push_cast; ring]
    rw [Rat.floor_cast]
    with_unfolding_all decide]
  rw [show ((12 : ℤ) % 12) = 0 by decide]
  rw [show specNearest 0 (scaleIntervals .major) = 0 by decide]
  norm_num

/-- C3 (counterexample): at `freq = 2^(39/40)` (11.7 semitones above root 1)
and the major scale, the code quantizes to `2^(11/12)` — the fractional JS
remainder 11.7 rounds to 12, which is not reduced mod 12, and the interval
nearest to position 12 is 11 — while the claim's `round(s) mod 12 ∈ [0,12)`
formula selects position 0 and yields the root 1.  The two disagree. -/
theorem quantizeFrequency_round_edge_counterexample :
    quantizeFrequency ((2 : ℝ) ^ ((39 / 40 : ℝ))) 1 .major = (2 : ℝ) ^ ((11 / 12 : ℝ)) ∧
    specQuantizeFrequency ((2 : ℝ) ^ ((39 / 40 : ℝ))) 1 .major = 1 ∧
    quantizeFrequency ((2 : ℝ) ^ ((39 / 40 : ℝ))) 1 .major ≠
      specQuantizeFrequency ((2 : ℝ) ^ ((39 / 40 : ℝ))) 1 .major := by
  refine ⟨code_value_edge, spec_value_edge, ?_⟩
  rw [code_value_edge, spec_value_edge]
  have h : (1 : ℝ) < (2 : ℝ) ^ ((11 / 12 : ℝ)) := by
    rw [Real.one_lt_rpow_iff_of_pos (by norm_num)]
    left
    constructor <;> norm_num
  exact ne_of_gt h

theorem nearestInterval_eq_specNearest (sc : ScaleType) :
    ∀ n ∈ Finset.Icc (0 : ℤ) 12,
      nearestInterval n (scaleIntervals sc) = specNearest n (scaleIntervals sc) := by
  cases sc <;> decide

theorem scenario_ratio : (300 : ℝ) / 261.63 = 10000 / 8721 := by norm_num

theorem scenario_pow_lo : (2 : ℝ) ≤ ((10000 / 8721 : ℝ)) ^ (8 : ℕ) := by norm_num

theorem scenario_pow_hi : ((10000 / 8721 : ℝ)) ^ (24 : ℕ) < 32 := by norm_num

theorem scenario_s_bounds :
    (3 / 2 : ℝ) ≤ 12 * Real.logb 2 ((300 : ℝ) / 261.63) ∧
    12 * Real.logb 2 ((300 : ℝ) / 261.63) < 5 / 2 := by
  rw [scenario_ratio]
  have hl2pos : 0 < Real.log 2 := Real.log_pos (by norm_num)
  have hlog1 : Real.log 2 ≤ 8 * Real.log (10000 / 8721) := by
    have h := Real.log_le_log (by norm_num : (0 : ℝ) < 2) scenario_pow_lo
    rwa [Real.log_pow, Nat.cast_ofNat] at h
  have hlog2 : 24 * Real.log (10000 / 8721) < 5 * Real.log 2 := by
    have h := Real.log_lt_log (by positivity) scenario_pow_hi
    rw [Real.log_pow, Nat.cast_ofNat] at h
    calc 24 * Real.log (10000 / 8721) < Real.log 32 := h
    _ = 5 * Real.log 2 := by
        rw [show (32 : ℝ) = 2 ^ (5 : ℕ) by norm_num, Real.log_pow]
        norm_num
  unfold Real.logb
  constructor
  · rw [← mul_div_assoc, le_div_iff₀ hl2pos]
    linarith
  · rw [← mul_div_assoc, div_lt_iff₀ hl2pos]
    linarith

theorem scenario_quantize :
    quantizeFrequency 300 261.63 .major = 261.63 * (2 : ℝ) ^ ((2 / 12 : ℝ)) := by
  unfold quantizeFrequency
  rw [if_neg (by decide)]
  dsimp only
  obtain ⟨hlo, hhi⟩ := scenario_s_bounds
  set s := 12 * Real.logb 2 ((300 : ℝ) / 261.63) with hs
  have hfloor : ⌊s / 12⌋ = 0 := by
    rw [Int.floor_eq_zero_iff, Set.mem_Ico]
    constructor
    · exact div_nonneg (by linarith) (by norm_num)
    · rw [div_lt_one (by norm_num)]
      linarith
  have hjs : jsMod s 12 = s := by
    unfold jsMod jsTrunc
    rw [if_pos (div_nonneg (by linarith) (by norm_num)), hfloor]
    push_cast
    ring
  have hround : round s = 2 := by
    rw [round_eq]
    rw [Int.floor_eq_iff]
    constructor
    · push_cast
      linarith
    · push_cast
      linarith
  rw [getNearestScaleNote_eq, hfloor]
  unfold normalizedNoteIndex
  rw [hjs, hround]
  rw [if_neg (by norm_num)]
  rw [show nearestInterval 2 (scaleIntervals .major) = 2 from by decide]
  norm_num

/-- C3 (amended): as the claim states, except for the intra-octave position.
For every non-chromatic scale and positive frequency and root, the code
splits `s = 12·log2(freq/root)` into `octave = ⌊s/12⌋` and the position
`round(s % 12)` (JS remainder, the dividend's sign) plus 12 when negative —
a value in [0, 12] that can equal 12 and is not reduced mod 12 — then picks
the first interval of the scale's list at minimal absolute distance and
returns `root·2^((octave·12 + interval)/12)`.  Chromatic is the identity,
and quantizing 300 Hz against root 261.63 Hz in major gives
`261.63·2^(2/12)` (≈ 293.66 Hz). -/
theorem quantizeFrequency_amended (f r : ℝ) (sc : ScaleType) (hsc : sc ≠ .chromatic)
    (hf : 0 < f) (hr : 0 < r) :
    quantizeFrequency f r .chromatic = f ∧
    quantizeFrequency f r sc =
      r * (2 : ℝ) ^ (((⌊(12 * Real.logb 2 (f / r)) / 12⌋ * 12 +
        specNearest (normalizedNoteIndex (12 * Real.logb 2 (f / r)))
          (scaleIntervals sc) : ℤ) : ℝ) / 12) ∧
    quantizeFrequency 300 261.63 .major = 261.63 * (2 : ℝ) ^ ((2 / 12 : ℝ)) := by
  refine ⟨by unfold quantizeFrequency; rw [if_pos rfl], ?_, scenario_quantize⟩
  unfold quantizeFrequency
  rw [if_neg hsc]
  dsimp only
  rw [getNearestScaleNote_eq]
  obtain ⟨h0, h12⟩ := normalizedNoteIndex_bounds (12 * Real.logb 2 (f / r))
  rw [nearestInterval_eq_specNearest sc _ (by rw [Finset.mem_Icc]; exact ⟨h0, h12⟩)]

theorem quantizeFrequency_amended_witness :
    ScaleType.major ≠ ScaleType.chromatic ∧ (0 : ℝ) < 2 ∧ (0 : ℝ) < 1 ∧
    (quantizeFrequency 2 1 .chromatic = 2 ∧
     quantizeFrequency 2 1 .major =
       1 * (2 : ℝ) ^ (((⌊(12 * Real.logb 2 ((2 : ℝ) / 1)) / 12⌋ * 12 +
         specNearest (normalizedNoteIndex (12 * Real.logb 2 ((2 : ℝ) / 1)))
           (scaleIntervals .major) : ℤ) : ℝ) / 12) ∧
     quantizeFrequency 300 261.63 .major = 261.63 * (2 : ℝ) ^ ((2 / 12 : ℝ))) :=
  ⟨by decide, by norm_num, by norm_num,
   quantizeFrequency_amended 2 1 .major (by decide) (by norm_num) (by norm_num)⟩

end HexSynth
